import Mathlib

/-!
Verification of `timewarrior-grouped` (src/src/main.rs), a timewarrior report
extension that groups tracked intervals by their tag sequence and renders a
table of minutes/hours/percentages per group.

Shallow embedding conventions:
* chrono `DateTime<Local>` is a pair of an absolute UTC instant (seconds since
  1970-01-01T00:00:00Z, as `Int`) and the local zone offset in seconds;
  the local wall clock of such a value is `utc + offset`.
* chrono `Duration` is an `Int` number of seconds; `num_minutes` is
  truncating division by 60 (`Int.div`, rounding toward zero), matching
  chrono's "whole minutes".
* Rust `f64` arithmetic on minutes (hours and percentage columns) is
  idealised as exact rational arithmetic over `ℚ`.
* Rust's stable `sort_by_key` is modelled by `List.insertionSort`, which is
  stable and (for a total, transitive, antisymmetric order) agrees with any
  stable sort.
* The serde/serde_json decoder is an external library, passed as an abstract
  `decode` function where the control flow of `get_data` is modelled.
-/

namespace TimewarriorGrouped

/-- chrono `DateTime<Local>`: an absolute UTC instant (in seconds) together
with the local offset (in seconds).  The local wall clock is `utc + offset`. -/
structure DateTimeLocal where
  utc : Int
  offset : Int
deriving DecidableEq, Repr

/-- The local wall-clock of a `DateTime<Local>`, in seconds. -/
def DateTimeLocal.localSecs (dt : DateTimeLocal) : Int :=
  dt.utc + dt.offset

/-- A `name: value` configuration line (struct `Setting` in main.rs). -/
structure Setting where
  name : String
  value : String
deriving DecidableEq, Repr

/-- One tracked time span (struct `Interval` in main.rs).  The source field
`end` is a Lean keyword and is called `stop` here; the optional free-text
annotation field is called `annot`. -/
structure Interval where
  start : DateTimeLocal
  stop : DateTimeLocal
  tags : List String
  annot : Option String
deriving DecidableEq, Repr

/-- `Interval::duration`: `end.signed_duration_since(start)`, in seconds.
The zone offsets cancel because chrono compares absolute instants. -/
def Interval.duration (i : Interval) : Int :=
  i.stop.utc - i.start.utc

/-- `Interval::title`: `tags.join(", ")`. -/
def Interval.title (i : Interval) : String :=
  String.intercalate ", " i.tags

/-- One output row of the grouped report (struct `GroupReportRow`). -/
structure GroupReportRow where
  title : String
  duration : Int
deriving DecidableEq, Repr

/-- The aggregate of one report invocation (struct `Data`). -/
structure Data where
  settings : List Setting
  intervals : List Interval
deriving DecidableEq, Repr

/-- One step of the grouping loop in `Data::grouped_report_rows`: find the
first row whose title equals `t` and add `d` to its duration, otherwise push a
new row at the end. -/
def addToRows : List GroupReportRow → String → Int → List GroupReportRow
  | [], t, d => [⟨t, d⟩]
  | r :: rs, t, d =>
    if r.title = t then ⟨r.title, r.duration + d⟩ :: rs
    else r :: addToRows rs t d

/-- `Data::grouped_report_rows`: fold every interval into the row list via the
linear-scan update `addToRows`. -/
def Data.grouped_report_rows (data : Data) : List GroupReportRow :=
  data.intervals.foldl (fun rows i => addToRows rows i.title i.duration) []

/-- Generalised grouping fold, starting from an arbitrary accumulator. -/
def groupAux (rows : List GroupReportRow) (l : List Interval) : List GroupReportRow :=
  l.foldl (fun rows i => addToRows rows i.title i.duration) rows

theorem grouped_report_rows_eq_groupAux (data : Data) :
    data.grouped_report_rows = groupAux [] data.intervals := rfl

theorem groupAux_cons (rows : List GroupReportRow) (i : Interval) (l : List Interval) :
    groupAux rows (i :: l) = groupAux (addToRows rows i.title i.duration) l := rfl

/-- `addToRows` adds `d` to the total duration of the row list. -/
theorem addToRows_sum (rows : List GroupReportRow) (t : String) (d : Int) :
    ((addToRows rows t d).map GroupReportRow.duration).sum
      = (rows.map GroupReportRow.duration).sum + d := by
  induction rows with
  | nil => simp [addToRows]
  | cons r rs ih =>
    by_cases h : r.title = t
    · simp [addToRows, h]
      ring
    · simp [addToRows, h, ih]
      ring

/-- Total duration is invariant under the grouping fold. -/
theorem groupAux_sum (l : List Interval) (rows : List GroupReportRow) :
    ((groupAux rows l).map GroupReportRow.duration).sum
      = (rows.map GroupReportRow.duration).sum + (l.map Interval.duration).sum := by
  induction l generalizing rows with
  | nil => simp [groupAux]
  | cons i l ih =>
    rw [groupAux_cons, ih, addToRows_sum]
    simp only [List.map_cons, List.sum_cons]
    ring

/-- The titles of `addToRows rows t d`: unchanged if `t` already occurs,
otherwise `t` is appended. -/
theorem addToRows_titles (rows : List GroupReportRow) (t : String) (d : Int) :
    (addToRows rows t d).map GroupReportRow.title
      = if t ∈ rows.map GroupReportRow.title
        then rows.map GroupReportRow.title
        else rows.map GroupReportRow.title ++ [t] := by
  induction rows with
  | nil => simp [addToRows]
  | cons r rs ih =>
    by_cases h : r.title = t
    · have hmem : t ∈ (r :: rs).map GroupReportRow.title := by
        simp [List.mem_cons, h.symm]
      rw [if_pos hmem]
      simp [addToRows, h]
    · have hne : ¬ t = r.title := fun hh => h hh.symm
      simp only [addToRows, if_neg h, List.map_cons, ih, List.mem_cons]
      by_cases hm : t ∈ rs.map GroupReportRow.title
      · rw [if_pos hm, if_pos (Or.inr hm)]
      · rw [if_neg hm, if_neg (not_or.mpr ⟨hne, hm⟩), List.cons_append]

/-- First-occurrence sequence of a list of titles: scan left to right, keep a
title the first time it is seen. -/
def first_occurrence_titles (ts : List String) : List String :=
  ts.foldl (fun acc t => if t ∈ acc then acc else acc ++ [t]) []

theorem groupAux_titles (l : List Interval) (rows : List GroupReportRow) :
    (groupAux rows l).map GroupReportRow.title
      = (l.map Interval.title).foldl
          (fun acc t => if t ∈ acc then acc else acc ++ [t])
          (rows.map GroupReportRow.title) := by
  induction l generalizing rows with
  | nil => simp [groupAux]
  | cons i l ih =>
    rw [groupAux_cons, ih, addToRows_titles]
    simp

/-- The sum of row durations equals the sum of interval durations. -/
theorem grouped_rows_duration_sum_aux (data : Data) :
    ((data.grouped_report_rows).map GroupReportRow.duration).sum
      = ((data.intervals).map Interval.duration).sum := by
  rw [grouped_report_rows_eq_groupAux, groupAux_sum]
  simp

/-- C1: grouping partitions the intervals, dropping none and double-counting
none — the sum of the grouped rows' durations equals the sum of all interval
durations. -/
theorem grouped_rows_duration_sum (data : Data) :
    ((data.grouped_report_rows).map GroupReportRow.duration).sum
      = ((data.intervals).map Interval.duration).sum :=
  grouped_rows_duration_sum_aux data

/-- The titles of the grouped rows are the distinct interval titles in order
of first occurrence. -/
theorem grouped_rows_titles_first_occurrence_aux (data : Data) :
    (data.grouped_report_rows).map GroupReportRow.title
      = first_occurrence_titles ((data.intervals).map Interval.title) := by
  rw [grouped_report_rows_eq_groupAux, groupAux_titles]
  simp [first_occurrence_titles]

/-- C9: before any sorting, the grouped rows appear in first-occurrence
order — the k-th row's title is the k-th distinct tag-combination title met
when scanning the intervals in input order. -/
theorem grouped_rows_titles_first_occurrence (data : Data) :
    (data.grouped_report_rows).map GroupReportRow.title
      = first_occurrence_titles ((data.intervals).map Interval.title) :=
  grouped_rows_titles_first_occurrence_aux data

/-- `rows.iter().find(|row| row.title == title)` of the grouping loop. -/
def findRow (rows : List GroupReportRow) (t : String) : Option GroupReportRow :=
  rows.find? (fun r => r.title = t)

/-- Sum of the durations of the intervals of `l` whose title is `t`. -/
def sumT (l : List Interval) (t : String) : Int :=
  ((l.filter (fun i => i.title = t)).map Interval.duration).sum

theorem findRow_addToRows_same (rows : List GroupReportRow) (t : String) (d : Int) :
    findRow (addToRows rows t d) t
      = some ⟨t, ((findRow rows t).map GroupReportRow.duration).getD 0 + d⟩ := by
  induction rows with
  | nil => simp [addToRows, findRow]
  | cons r rs ih =>
    by_cases h : r.title = t
    · simp [addToRows, findRow, h]
    · rw [show addToRows (r :: rs) t d = r :: addToRows rs t d by
        simp [addToRows, h]]
      unfold findRow at *
      rw [List.find?_cons_of_neg _ (by simpa using h),
        List.find?_cons_of_neg _ (by simpa using h), ih]

theorem findRow_addToRows_other (rows : List GroupReportRow) (t t' : String) (d : Int)
    (hne : t' ≠ t) :
    findRow (addToRows rows t d) t' = findRow rows t' := by
  induction rows with
  | nil =>
    unfold findRow addToRows
    rw [List.find?_cons_of_neg _ (by simpa using fun hh : t = t' => hne hh.symm)]
  | cons r rs ih =>
    by_cases h : r.title = t
    · have hrt : ¬ r.title = t' := fun hh => hne (by rw [← hh, h])
      rw [show addToRows (r :: rs) t d = ⟨r.title, r.duration + d⟩ :: rs by
        simp [addToRows, h]]
      unfold findRow
      rw [List.find?_cons_of_neg _ (by simpa using hrt),
        List.find?_cons_of_neg _ (by simpa using hrt)]
    · rw [show addToRows (r :: rs) t d = r :: addToRows rs t d by
        simp [addToRows, h]]
      unfold findRow at *
      by_cases hrt : r.title = t'
      · rw [List.find?_cons_of_pos _ (by simpa using hrt),
          List.find?_cons_of_pos _ (by simpa using hrt)]
      · rw [List.find?_cons_of_neg _ (by simpa using hrt),
          List.find?_cons_of_neg _ (by simpa using hrt), ih]

/-- Main grouping invariant: after folding `l` on top of `rows`, the row found
at title `t` carries the accumulated duration of all intervals of `l` titled
`t`, on top of whatever `rows` already held at `t`. -/
theorem findRow_groupAux (l : List Interval) (rows : List GroupReportRow) (t : String) :
    findRow (groupAux rows l) t
      = match findRow rows t with
        | some r => some ⟨r.title, r.duration + sumT l t⟩
        | none =>
          if t ∈ l.map Interval.title then some ⟨t, sumT l t⟩ else none := by
  induction l generalizing rows with
  | nil =>
    cases h : findRow rows t with
    | none => simp [groupAux, h]
    | some r => simp [groupAux, h, sumT]
  | cons i l ih =>
    rw [groupAux_cons, ih]
    by_cases hit : i.title = t
    · subst hit
      rw [findRow_addToRows_same rows i.title i.duration]
      have hsum : sumT (i :: l) i.title = i.duration + sumT l i.title := by
        simp [sumT, List.filter_cons]
      cases h : findRow rows i.title with
      | none =>
        simp only [h]
        simp [hsum, List.mem_cons]
      | some r =>
        have hr : r.title = i.title := by
          have := List.find?_some (by simpa [findRow] using h)
          simpa using this
        simp only [h]
        simp [hsum, hr]
        ring
    · have hti : ¬ t = i.title := fun hh => hit hh.symm
      rw [findRow_addToRows_other rows i.title t i.duration hti]
      have hsum : sumT (i :: l) t = sumT l t := by
        simp [sumT, List.filter_cons, hit]
      cases h : findRow rows t with
      | none => simp [h, hsum, hti]
      | some r => simp [h, hsum]

/-- `first_occurrence_titles` never duplicates a title. -/
theorem first_occurrence_titles_nodup (ts : List String) :
    (first_occurrence_titles ts).Nodup := by
  suffices h : ∀ acc : List String, acc.Nodup →
      (ts.foldl (fun acc t => if t ∈ acc then acc else acc ++ [t]) acc).Nodup by
    exact h [] List.nodup_nil
  induction ts with
  | nil => intro acc hacc; simpa [first_occurrence_titles] using hacc
  | cons t ts ih =>
    intro acc hacc
    simp only [List.foldl_cons]
    by_cases hm : t ∈ acc
    · rw [if_pos hm]; exact ih acc hacc
    · rw [if_neg hm]
      refine ih _ ?_
      simpa [List.nodup_append, hm] using hacc

/-- The grouped rows have pairwise-distinct titles. -/
theorem grouped_rows_titles_nodup (data : Data) :
    ((data.grouped_report_rows).map GroupReportRow.title).Nodup := by
  rw [grouped_rows_titles_first_occurrence_aux]
  exact first_occurrence_titles_nodup _

/-- C2: two intervals with element-wise equal tag sequences contribute to a
single common row, whose title is the tag list joined with `", "` and whose
duration is the sum over all intervals sharing that title. -/
theorem grouped_rows_common_row (data : Data) (a b : Interval)
    (ha : a ∈ data.intervals) (_hb : b ∈ data.intervals) (htags : a.tags = b.tags) :
    ∃ r ∈ data.grouped_report_rows,
      r.title = String.intercalate ", " a.tags ∧
      r.duration = sumT data.intervals a.title ∧
      ∀ r' ∈ data.grouped_report_rows,
        r'.title = String.intercalate ", " b.tags → r' = r := by
  have hfind : findRow data.grouped_report_rows a.title
      = some ⟨a.title, sumT data.intervals a.title⟩ := by
    rw [grouped_report_rows_eq_groupAux, findRow_groupAux]
    have hmem : a.title ∈ data.intervals.map Interval.title :=
      List.mem_map.mpr ⟨a, ha, rfl⟩
    simp [findRow, hmem]
  refine ⟨⟨a.title, sumT data.intervals a.title⟩,
    List.mem_of_find?_eq_some hfind, rfl, rfl, ?_⟩
  intro r' hr' htitle
  have hteq : String.intercalate ", " b.tags = a.title := by
    rw [Interval.title, htags]
  have hmem : (⟨a.title, sumT data.intervals a.title⟩ : GroupReportRow)
      ∈ data.grouped_report_rows := List.mem_of_find?_eq_some hfind
  exact List.inj_on_of_nodup_map (grouped_rows_titles_nodup data) hr' hmem
    (by rw [htitle, hteq])

/-- Every element of `first_occurrence_titles ts` occurs in `ts`. -/
theorem first_occurrence_titles_subset (ts : List String) :
    ∀ x ∈ first_occurrence_titles ts, x ∈ ts := by
  suffices h : ∀ acc : List String,
      ∀ x ∈ ts.foldl (fun acc t => if t ∈ acc then acc else acc ++ [t]) acc,
        x ∈ acc ∨ x ∈ ts by
    intro x hx
    rcases h [] x hx with hxa | hxt
    · exact absurd hxa (List.not_mem_nil x)
    · exact hxt
  induction ts with
  | nil =>
    intro acc x hx
    simp only [List.foldl_nil] at hx
    exact Or.inl hx
  | cons t ts ih =>
    intro acc x hx
    simp only [List.foldl_cons] at hx
    by_cases hm : t ∈ acc
    · rw [if_pos hm] at hx
      rcases ih acc x hx with hxa | hxt
      · exact Or.inl hxa
      · exact Or.inr (List.mem_cons_of_mem _ hxt)
    · rw [if_neg hm] at hx
      rcases ih (acc ++ [t]) x hx with hxa | hxt
      · rcases List.mem_append.mp hxa with hxa | hxa
        · exact Or.inl hxa
        · have hxt : x = t := by simpa using hxa
          exact Or.inr (hxt ▸ List.mem_cons_self t ts)
      · exact Or.inr (List.mem_cons_of_mem _ hxt)

/-- Every grouped row's duration is exactly the sum of the durations of the
intervals carrying its title. -/
theorem grouped_rows_duration_eq_sumT (data : Data) (r : GroupReportRow)
    (hr : r ∈ data.grouped_report_rows) :
    r.duration = sumT data.intervals r.title := by
  have hmem : r.title ∈ data.intervals.map Interval.title := by
    have hfo := grouped_rows_titles_first_occurrence_aux data
    have hmem0 : r.title ∈ (data.grouped_report_rows).map GroupReportRow.title :=
      List.mem_map.mpr ⟨r, hr, rfl⟩
    rw [hfo] at hmem0
    exact first_occurrence_titles_subset _ _ hmem0
  have hfind : findRow data.grouped_report_rows r.title
      = some ⟨r.title, sumT data.intervals r.title⟩ := by
    rw [grouped_report_rows_eq_groupAux, findRow_groupAux]
    simp [findRow, hmem]
  have hr2 : (⟨r.title, sumT data.intervals r.title⟩ : GroupReportRow)
      ∈ data.grouped_report_rows := List.mem_of_find?_eq_some hfind
  have heq := List.inj_on_of_nodup_map (grouped_rows_titles_nodup data) hr hr2 rfl
  have := congrArg GroupReportRow.duration heq
  simpa using this

/-- Witness for `grouped_rows_common_row`: two intervals tagged `["w"]` land
in one common row. -/
theorem grouped_rows_common_row_witness :
    ∃ r ∈ (Data.mk [] [⟨⟨0, 0⟩, ⟨60, 0⟩, ["w"], none⟩,
        ⟨⟨0, 0⟩, ⟨180, 0⟩, ["w"], none⟩]).grouped_report_rows,
      r.title = String.intercalate ", "
          (Interval.tags ⟨⟨0, 0⟩, ⟨60, 0⟩, ["w"], none⟩) ∧
      r.duration = sumT (Data.mk [] [⟨⟨0, 0⟩, ⟨60, 0⟩, ["w"], none⟩,
          ⟨⟨0, 0⟩, ⟨180, 0⟩, ["w"], none⟩]).intervals
          (Interval.title ⟨⟨0, 0⟩, ⟨60, 0⟩, ["w"], none⟩) ∧
      ∀ r' ∈ (Data.mk [] [⟨⟨0, 0⟩, ⟨60, 0⟩, ["w"], none⟩,
          ⟨⟨0, 0⟩, ⟨180, 0⟩, ["w"], none⟩]).grouped_report_rows,
        r'.title = String.intercalate ", "
            (Interval.tags ⟨⟨0, 0⟩, ⟨180, 0⟩, ["w"], none⟩) → r' = r :=
  grouped_rows_common_row
    (Data.mk [] [⟨⟨0, 0⟩, ⟨60, 0⟩, ["w"], none⟩, ⟨⟨0, 0⟩, ⟨180, 0⟩, ["w"], none⟩])
    ⟨⟨0, 0⟩, ⟨60, 0⟩, ["w"], none⟩ ⟨⟨0, 0⟩, ⟨180, 0⟩, ["w"], none⟩
    (by simp) (by simp) rfl

/-! ### Sorting and display order (main.rs lines 194–196) -/

/-- The key order of `rows.sort_by_key(|r| r.duration)`. -/
def rowLe (a b : GroupReportRow) : Prop :=
  a.duration ≤ b.duration

instance : DecidableRel rowLe :=
  fun a b => inferInstanceAs (Decidable (a.duration ≤ b.duration))

instance : IsTotal GroupReportRow rowLe :=
  ⟨fun a b => le_total a.duration b.duration⟩

instance : IsTrans GroupReportRow rowLe :=
  ⟨fun _ _ _ hab hbc => le_trans hab hbc⟩

/-- `rows.sort_by_key(|r| r.duration)`: Rust's sort is stable and ascending in
the key, which `List.insertionSort` realises exactly. -/
def sortRows (rows : List GroupReportRow) : List GroupReportRow :=
  rows.insertionSort rowLe

/-- The iteration order of `rows.iter().rev()` after the ascending sort: the
order in which the rows are displayed. -/
def displayRows (rows : List GroupReportRow) : List GroupReportRow :=
  (sortRows rows).reverse

/-- C3 (amended): the display order is non-increasing in duration, and two
rows of equal duration appear in the display in the REVERSE of the relative
order they had in the ascending stable sort (and hence of their original
relative order), because the ascending sort is traversed backwards. -/
theorem display_order (rows : List GroupReportRow) (a b : GroupReportRow)
    (hab : List.Sublist [a, b] rows) (hdur : a.duration = b.duration) :
    List.Sorted (fun x y : GroupReportRow => y.duration ≤ x.duration)
      (displayRows rows)
    ∧ List.Sublist [b, a] (displayRows rows) := by
  constructor
  · have hs : List.Sorted rowLe (sortRows rows) :=
      List.sorted_insertionSort rowLe rows
    exact List.pairwise_reverse.mpr hs
  · have h1 : List.Sublist [a, b] (sortRows rows) :=
      List.pair_sublist_insertionSort hdur.le hab
    have h2 := h1.reverse
    simpa [displayRows] using h2

/-- C3 (counterexample to the claim as stated): two distinct rows with equal
durations are displayed in the order `b, a` although the ascending stable
sort orders them `a, b` — the display reverses tie order instead of
preserving it. -/
theorem display_order_counterexample :
    sortRows [⟨"a", 0⟩, ⟨"b", 0⟩] = [⟨"a", 0⟩, ⟨"b", 0⟩]
    ∧ displayRows [⟨"a", 0⟩, ⟨"b", 0⟩] = [⟨"b", 0⟩, ⟨"a", 0⟩]
    ∧ (⟨"a", 0⟩ : GroupReportRow).duration = (⟨"b", 0⟩ : GroupReportRow).duration
    ∧ (⟨"a", 0⟩ : GroupReportRow) ≠ ⟨"b", 0⟩ := by
  refine ⟨by decide, by decide, rfl, by decide⟩

/-- Witness for `display_order` at a concrete pair of tied rows. -/
theorem display_order_witness :
    List.Sorted (fun x y : GroupReportRow => y.duration ≤ x.duration)
      (displayRows [⟨"a", 0⟩, ⟨"b", 0⟩])
    ∧ List.Sublist [(⟨"b", 0⟩ : GroupReportRow), ⟨"a", 0⟩]
        (displayRows [⟨"a", 0⟩, ⟨"b", 0⟩]) :=
  display_order [⟨"a", 0⟩, ⟨"b", 0⟩] ⟨"a", 0⟩ ⟨"b", 0⟩ (List.Sublist.refl _) rfl

/-! ### Column padding (main.rs lines 75–87) -/

/-- `pad_string`: left-pad `s` with spaces to width `len`; if `len` is smaller
than the length of `s` (`checked_sub` returns `None`), return `s` unchanged. -/
def pad_string (s : String) (len : Nat) : String :=
  if s.length ≤ len then String.mk (List.replicate (len - s.length) ' ') ++ s
  else s

/-- C10: `pad_string s len` has length `max len s.length`, always ends with
`s` unchanged, and returns `s` as-is whenever `s` is at least `len` long —
titles are never truncated to the column width. -/
theorem pad_string_spec (s : String) (len : Nat) :
    (pad_string s len).length = max len s.length
    ∧ (∃ p : String, pad_string s len = p ++ s)
    ∧ (len ≤ s.length → pad_string s len = s) := by
  unfold pad_string
  by_cases h : s.length ≤ len
  · rw [if_pos h]
    refine ⟨?_, ⟨String.mk (List.replicate (len - s.length) ' '), rfl⟩, ?_⟩
    · rw [String.length_append]
      simp only [String.length]
      simp only [List.length_replicate]
      rw [Nat.max_def]
      split <;> omega
    · intro hle
      have h0 : len - s.length = 0 := by omega
      rw [h0]
      simp
  · rw [if_neg h]
    refine ⟨?_, ⟨"", by simp⟩, fun _ => rfl⟩
    rw [Nat.max_def]
    split <;> omega

/-- Witness for `pad_string_spec` at a concrete string and width. -/
theorem pad_string_spec_witness :
    (pad_string "ab" 5).length = max 5 ("ab" : String).length
    ∧ (∃ p : String, pad_string "ab" 5 = p ++ "ab")
    ∧ (5 ≤ ("ab" : String).length → pad_string "ab" 5 = "ab") :=
  pad_string_spec "ab" 5

/-! ### Timestamps (mod `timewarrior_datetime`, main.rs lines 5–29)

The proleptic-Gregorian calendar arithmetic below embeds chrono's
`NaiveDateTime`/`date_naive` semantics (Howard Hinnant's civil-calendar
algorithms, which chrono implements). -/

/-- A parsed `YYYYMMDDTHHMMSSZ` timestamp, field by field. -/
structure Fields where
  year : Int
  month : Nat
  day : Nat
  hour : Nat
  minute : Nat
  second : Nat
deriving DecidableEq, Repr

/-- Number of days of month `m` of year `y` in the proleptic Gregorian
calendar. -/
def daysInMonth (y : Int) (m : Nat) : Nat :=
  if m = 2 then (if (y % 4 = 0 ∧ y % 100 ≠ 0) ∨ y % 400 = 0 then 29 else 28)
  else if m = 4 ∨ m = 6 ∨ m = 9 ∨ m = 11 then 30
  else 31

/-- Field ranges accepted by chrono's `%Y%m%dT%H%M%SZ` parser. -/
def Fields.valid (f : Fields) : Prop :=
  1 ≤ f.month ∧ f.month ≤ 12 ∧ 1 ≤ f.day ∧ f.day ≤ daysInMonth f.year f.month
    ∧ f.hour ≤ 23 ∧ f.minute ≤ 59 ∧ f.second ≤ 59

instance : DecidablePred Fields.valid := fun f => by
  unfold Fields.valid
  infer_instance

/-- Days since 1970-01-01 of the civil date `y-m-d`. -/
def days_from_civil (y : Int) (m d : Nat) : Int :=
  let yadj : Int := if m ≤ 2 then y - 1 else y
  let era : Int := yadj / 400
  let yoe : Nat := (yadj - era * 400).toNat
  let mp : Nat := if 2 < m then m - 3 else m + 9
  let doy : Nat := (153 * mp + 2) / 5 + d - 1
  let doe : Nat := 365 * yoe + yoe / 4 - yoe / 100 + doy
  era * 146097 + (doe : Int) - 719468

/-- Civil date `(y, m, d)` of the day `z` days after 1970-01-01. -/
def civil_from_days (z : Int) : Int × Nat × Nat :=
  let z2 : Int := z + 719468
  let era : Int := z2 / 146097
  let doe : Nat := (z2 - era * 146097).toNat
  let yoe : Nat := (doe - doe / 1460 + doe / 36524 - doe / 146096) / 365
  let y : Int := (yoe : Int) + era * 400
  let doy : Nat := doe - (365 * yoe + yoe / 4 - yoe / 100)
  let mp : Nat := (5 * doy + 2) / 153
  let d : Nat := doy - (153 * mp + 2) / 5 + 1
  let m : Nat := if mp < 10 then mp + 3 else mp - 9
  (if m ≤ 2 then y + 1 else y, m, d)

/-- The tail of `civil_from_days` once the era and day-of-era have been
split off; used to reason about the calendar roundtrip. -/
def civil_of_doe (era : Int) (doe : Nat) : Int × Nat × Nat :=
  let yoe : Nat := (doe - doe / 1460 + doe / 36524 - doe / 146096) / 365
  let y : Int := (yoe : Int) + era * 400
  let doy : Nat := doe - (365 * yoe + yoe / 4 - yoe / 100)
  let mp : Nat := (5 * doy + 2) / 153
  let d : Nat := doy - (153 * mp + 2) / 5 + 1
  let m : Nat := if mp < 10 then mp + 3 else mp - 9
  (if m ≤ 2 then y + 1 else y, m, d)

set_option maxHeartbeats 4000000

/-- Key arithmetic identity of Hinnant's algorithm: the year-of-era is
recovered from the day-of-era (for day-of-year 365 only in leap years). -/
theorem yoe_recover (yoe doy : Nat) (hyoe : yoe ≤ 399)
    (hdoy : doy ≤ 364 ∨ (doy ≤ 365 ∧
      (((yoe+1) % 4 = 0 ∧ ¬ (yoe+1) % 100 = 0) ∨ (yoe+1) % 400 = 0))) :
    ((365*yoe + yoe/4 - yoe/100 + doy) - (365*yoe + yoe/4 - yoe/100 + doy)/1460
      + (365*yoe + yoe/4 - yoe/100 + doy)/36524
      - (365*yoe + yoe/4 - yoe/100 + doy)/146096)/365 = yoe := by
  interval_cases yoe <;> omega

/-- `civil_from_days` at `era`/`doe` splits into `civil_of_doe`. -/
theorem civil_from_days_eq (era : Int) (N : Nat) (hN : N ≤ 146096) :
    civil_from_days (146097 * era + (N : Int) - 719468) = civil_of_doe era N := by
  simp only [civil_from_days, civil_of_doe]
  have h1 : (146097 * era + (N : Int) - 719468 + 719468) / 146097 = era := by
    omega
  rw [h1]
  have h2 : ((146097 * era + (N : Int) - 719468) + 719468 - era * 146097).toNat = N := by
    omega
  rw [h2]

/-- Evaluation of `civil_of_doe` on a well-formed day-of-era. -/
theorem civil_of_doe_eval (era : Int) (yoe doy : Nat)
    (hdoy : doy ≤ 365)
    (hkey : ((365*yoe + yoe/4 - yoe/100 + doy)
        - (365*yoe + yoe/4 - yoe/100 + doy)/1460
        + (365*yoe + yoe/4 - yoe/100 + doy)/36524
        - (365*yoe + yoe/4 - yoe/100 + doy)/146096)/365 = yoe) :
    civil_of_doe era (365*yoe + yoe/4 - yoe/100 + doy)
      = (if (if (5*doy + 2)/153 < 10 then (5*doy + 2)/153 + 3 else (5*doy + 2)/153 - 9) ≤ 2
           then (yoe : Int) + era * 400 + 1 else (yoe : Int) + era * 400,
         if (5*doy + 2)/153 < 10 then (5*doy + 2)/153 + 3 else (5*doy + 2)/153 - 9,
         doy - (153 * ((5*doy + 2)/153) + 2)/5 + 1) := by
  simp only [civil_of_doe]
  rw [hkey]
  have hdoy2 : (365*yoe + yoe/4 - yoe/100 + doy) - (365*yoe + yoe/4 - yoe/100) = doy := by
    omega
  rw [hdoy2]

/-- `days_from_civil` for January/February in era/year-of-era form. -/
theorem fwd_le2 (y : Int) (m d : Nat) (hm : m ≤ 2)
    (era : Int) (yoe : Nat) (hyd : y - 1 = 400 * era + yoe) (hyoe : yoe ≤ 399) :
    days_from_civil y m d
      = 146097 * era
        + ((365*yoe + yoe/4 - yoe/100 + ((153*(m+9)+2)/5 + d - 1) : Nat) : Int)
        - 719468 := by
  simp only [days_from_civil]
  rw [if_pos hm, if_neg (by omega : ¬ 2 < m)]
  have hw : ((y - 1) - (y - 1) / 400 * 400).toNat = yoe := by omega
  rw [hw]
  have he : (y - 1) / 400 = era := by omega
  rw [he]
  omega

/-- `days_from_civil` for March..December in era/year-of-era form. -/
theorem fwd_ge3 (y : Int) (m d : Nat) (hm3 : 3 ≤ m)
    (era : Int) (yoe : Nat) (hyd : y = 400 * era + yoe) (hyoe : yoe ≤ 399) :
    days_from_civil y m d
      = 146097 * era
        + ((365*yoe + yoe/4 - yoe/100 + ((153*(m-3)+2)/5 + d - 1) : Nat) : Int)
        - 719468 := by
  simp only [days_from_civil]
  rw [if_neg (by omega : ¬ m ≤ 2), if_pos (by omega : 2 < m)]
  have hw : (y - y / 400 * 400).toNat = yoe := by omega
  rw [hw]
  have he : y / 400 = era := by omega
  rw [he]
  omega

/-- Calendar roundtrip for January and February. -/
theorem rt_le2 (y : Int) (m d : Nat) (hm1 : 1 ≤ m) (hm : m ≤ 2)
    (hd1 : 1 ≤ d) (hd31 : d ≤ 31)
    (hdoy : (153*(m+9)+2)/5 + d - 1 ≤ 364
      ∨ ((153*(m+9)+2)/5 + d - 1 ≤ 365
         ∧ ((y % 4 = 0 ∧ ¬ y % 100 = 0) ∨ y % 400 = 0))) :
    civil_from_days (days_from_civil y m d) = (y, m, d) := by
  obtain ⟨era, yoe, hyd, hyoe⟩ : ∃ (era : Int) (yoe : Nat),
      y - 1 = 400 * era + yoe ∧ yoe ≤ 399 :=
    ⟨(y-1)/400, ((y-1) - 400*((y-1)/400)).toNat, by omega, by omega⟩
  have hkey := yoe_recover yoe ((153*(m+9)+2)/5 + d - 1) hyoe (by
    rcases hdoy with h | ⟨h1, h2⟩
    · exact Or.inl h
    · exact Or.inr ⟨h1, by omega⟩)
  rw [fwd_le2 y m d hm era yoe hyd hyoe,
      civil_from_days_eq era _ (by omega),
      civil_of_doe_eval era yoe _ (by omega) hkey]
  interval_cases m <;> split_ifs <;> simp only [Prod.mk.injEq] <;> omega

/-- Calendar roundtrip for March through December. -/
theorem rt_ge3 (y : Int) (m d : Nat) (hm3 : 3 ≤ m) (hm12 : m ≤ 12)
    (hd1 : 1 ≤ d)
    (hdim : d ≤ 30 ∨ (d ≤ 31 ∧ ¬ (m = 4 ∨ m = 6 ∨ m = 9 ∨ m = 11))) :
    civil_from_days (days_from_civil y m d) = (y, m, d) := by
  obtain ⟨era, yoe, hyd, hyoe⟩ : ∃ (era : Int) (yoe : Nat),
      y = 400 * era + yoe ∧ yoe ≤ 399 :=
    ⟨y/400, (y - 400*(y/400)).toNat, by omega, by omega⟩
  have hkey := yoe_recover yoe ((153*(m-3)+2)/5 + d - 1) hyoe (Or.inl (by omega))
  rw [fwd_ge3 y m d hm3 era yoe hyd hyoe,
      civil_from_days_eq era _ (by omega),
      civil_of_doe_eval era yoe _ (by omega) hkey]
  interval_cases m <;> split_ifs <;> simp only [Prod.mk.injEq] <;> omega

/-- The civil-calendar conversions are mutually inverse on valid dates. -/
theorem civil_from_days_roundtrip (y : Int) (m d : Nat)
    (hm1 : 1 ≤ m) (hm2 : m ≤ 12) (hd1 : 1 ≤ d) (hd2 : d ≤ daysInMonth y m) :
    civil_from_days (days_from_civil y m d) = (y, m, d) := by
  rcases le_or_lt m 2 with hm | hm
  · by_cases h2 : m = 2
    · subst h2
      simp only [daysInMonth, reduceIte] at hd2
      by_cases hleap : (y % 4 = 0 ∧ ¬ y % 100 = 0) ∨ y % 400 = 0
      · rw [if_pos hleap] at hd2
        exact rt_le2 y 2 d hm1 hm hd1 (by omega) (Or.inr ⟨by omega, hleap⟩)
      · rw [if_neg hleap] at hd2
        exact rt_le2 y 2 d hm1 hm hd1 (by omega) (Or.inl (by omega))
    · have h1 : m = 1 := by omega
      subst h1
      have hd31 : d ≤ 31 := by
        simp only [daysInMonth, reduceIte] at hd2
        exact hd2
      exact rt_le2 y 1 d hm1 hm hd1 hd31 (Or.inl (by omega))
  · have hne2 : ¬ m = 2 := by omega
    unfold daysInMonth at hd2
    rw [if_neg hne2] at hd2
    by_cases h4 : m = 4 ∨ m = 6 ∨ m = 9 ∨ m = 11
    · rw [if_pos h4] at hd2
      exact rt_ge3 y m d (by omega) hm2 hd1 (Or.inl hd2)
    · rw [if_neg h4] at hd2
      exact rt_ge3 y m d (by omega) hm2 hd1 (Or.inr ⟨hd2, h4⟩)

/-- The absolute timestamp (seconds since the epoch, UTC) denoted by the
fields read as a UTC calendar date-time. -/
def fields_to_secs (f : Fields) : Int :=
  days_from_civil f.year f.month f.day * 86400
    + (f.hour * 3600 + f.minute * 60 + f.second : Nat)

/-- Calendar fields of an absolute timestamp. -/
def fields_of_secs (t : Int) : Fields :=
  let days : Int := t / 86400
  let sod : Nat := (t % 86400).toNat
  let ymd := civil_from_days days
  ⟨ymd.1, ymd.2.1, ymd.2.2, sod / 3600, sod % 3600 / 60, sod % 60⟩

/-- The local calendar date and time-of-day of a `DateTime<Local>` (what
chrono's `date_naive`/`time` observe). -/
def localFields (dt : DateTimeLocal) : Fields :=
  fields_of_secs dt.localSecs

/-- Numeric value of an ASCII digit. -/
def digit (c : Char) : Nat :=
  c.toNat - 48

/-- Two-digit decimal field. -/
def two_digits (a b : Char) : Nat :=
  10 * digit a + digit b

/-- The fixed-pattern scan of `NaiveDateTime::parse_from_str(s,
"%Y%m%dT%H%M%SZ")`: sixteen characters, digit fields, literal `T` and `Z`,
fields range-checked. -/
def timewarrior_parse_fields (s : String) : Option Fields :=
  match s.data with
  | [y1, y2, y3, y4, m1, m2, d1, d2, t, h1, h2, n1, n2, p1, p2, z] =>
    if t = 'T' ∧ z = 'Z'
        ∧ ([y1, y2, y3, y4, m1, m2, d1, d2,
            h1, h2, n1, n2, p1, p2].all Char.isDigit = true) then
      if (Fields.mk (100 * two_digits y1 y2 + two_digits y3 y4)
          (two_digits m1 m2) (two_digits d1 d2) (two_digits h1 h2)
          (two_digits n1 n2) (two_digits p1 p2)).valid then
        some ⟨100 * two_digits y1 y2 + two_digits y3 y4, two_digits m1 m2,
          two_digits d1 d2, two_digits h1 h2, two_digits n1 n2, two_digits p1 p2⟩
      else none
    else none
  | _ => none

/-- `timewarrior_datetime::parse`: parse the fields, then
`DateTime::<Local>::from_naive_utc_and_offset(dt, offset)` — the parsed naive
value becomes the UTC instant, and the current local offset is attached. -/
def timewarrior_parse (s : String) (offset : Int) : Option DateTimeLocal :=
  (timewarrior_parse_fields s).map fun f => ⟨fields_to_secs f, offset⟩

/-- Decimal digits of `n`, zero-padded to width 2 (chrono `%m`, `%d`). -/
def pad2 (n : Nat) : String :=
  if n < 10 then "0" ++ toString n else toString n

/-- Decimal digits of `n`, zero-padded to width 4. -/
def pad4 (n : Nat) : String :=
  if n < 10 then "000" ++ toString n
  else if n < 100 then "00" ++ toString n
  else if n < 1000 then "0" ++ toString n
  else toString n

/-- chrono `%Y`: the year, zero-padded to at least four digits. -/
def year_string (y : Int) : String :=
  if y < 0 then "-" ++ pad4 (-y).toNat else pad4 y.toNat

/-- `date_time_to_date_string`: `datetime.date_naive().format("%Y-%m-%d")`,
the LOCAL calendar date of the instant. -/
def date_time_to_date_string (dt : DateTimeLocal) : String :=
  year_string (localFields dt).year ++ "-" ++ pad2 (localFields dt).month
    ++ "-" ++ pad2 (localFields dt).day

/-- `Data::find_setting`: first setting with the given name. -/
def Data.find_setting (data : Data) (n : String) : Option Setting :=
  data.settings.find? (fun s => s.name = n)

/-- `Setting::value_to_date_time` — the `.unwrap()` panic on an unparseable
value is modelled by `none`. -/
def Setting.value_to_date_time (s : Setting) (offset : Int) : Option DateTimeLocal :=
  timewarrior_parse s.value offset

/-- `Data::report_title`: `"<start-date> - <end-date>"` where the end instant
has one second subtracted before taking its (local) calendar date; the empty
string if the start setting is missing or empty or the end setting is
missing.  `none` models the panic on an unparseable setting value. -/
def Data.report_title (data : Data) (offset : Int) : Option String :=
  match data.find_setting "temp.report.start", data.find_setting "temp.report.end" with
  | some st, some en =>
    if st.value = "" then some ""
    else
      match st.value_to_date_time offset, en.value_to_date_time offset with
      | some sdt, some edt =>
        some (date_time_to_date_string sdt ++ " - "
          ++ date_time_to_date_string ⟨edt.utc - 1, edt.offset⟩)
      | _, _ => none
  | _, _ => some ""

/-- The hour/minute/second and calendar date of a timestamp built from valid
fields are recovered exactly: `fields_of_secs` inverts `fields_to_secs`. -/
theorem fields_of_secs_roundtrip (f : Fields) (hv : f.valid) :
    fields_of_secs (fields_to_secs f) = f := by
  unfold Fields.valid at hv
  obtain ⟨h1, h2, h3, h4, h5, h6, h7⟩ := hv
  simp only [fields_to_secs, fields_of_secs]
  have hdc : (days_from_civil f.year f.month f.day * 86400
      + ((f.hour * 3600 + f.minute * 60 + f.second : Nat) : Int)) / 86400
      = days_from_civil f.year f.month f.day := by omega
  have hsod : ((days_from_civil f.year f.month f.day * 86400
      + ((f.hour * 3600 + f.minute * 60 + f.second : Nat) : Int)) % 86400).toNat
      = f.hour * 3600 + f.minute * 60 + f.second := by omega
  rw [hdc, hsod, civil_from_days_roundtrip f.year f.month f.day h1 h2 h3 h4]
  have hh : (f.hour * 3600 + f.minute * 60 + f.second) / 3600 = f.hour := by omega
  have hmi : (f.hour * 3600 + f.minute * 60 + f.second) % 3600 / 60 = f.minute := by omega
  have hs : (f.hour * 3600 + f.minute * 60 + f.second) % 60 = f.second := by omega
  rw [hh, hmi, hs]

/-- The fixed-pattern parser only returns range-valid fields. -/
theorem timewarrior_parse_fields_valid {s : String} {f : Fields}
    (h : timewarrior_parse_fields s = some f) : f.valid := by
  unfold timewarrior_parse_fields at h
  split at h
  · split at h
    · split at h
      · cases h
        assumption
      · exact absurd h (by simp)
    · exact absurd h (by simp)
  · exact absurd h (by simp)

/-- C4 (amended): the parser interprets the digit fields as UTC, not local
wall-clock: the resulting `DateTime<Local>` has UTC instant equal to the
fields' timestamp, its local calendar equals the written fields exactly when
the offset is zero, and in general the local calendar is the fields' instant
shifted by the local offset. -/
theorem timewarrior_parse_utc (s : String) (offset : Int) (f : Fields)
    (h : timewarrior_parse_fields s = some f) :
    timewarrior_parse s offset = some ⟨fields_to_secs f, offset⟩
    ∧ localFields ⟨fields_to_secs f, 0⟩ = f
    ∧ localFields ⟨fields_to_secs f, offset⟩
        = fields_of_secs (fields_to_secs f + offset) := by
  refine ⟨by simp [timewarrior_parse, h], ?_, rfl⟩
  have hv := timewarrior_parse_fields_valid h
  show fields_of_secs (fields_to_secs f + 0) = f
  rw [add_zero]
  exact fields_of_secs_roundtrip f hv

/-- Witness for `timewarrior_parse_utc` at the concrete timestamp
`20240101T000000Z` and offset +01:00. -/
theorem timewarrior_parse_utc_witness :
    timewarrior_parse "20240101T000000Z" 3600
        = some ⟨fields_to_secs ⟨2024, 1, 1, 0, 0, 0⟩, 3600⟩
    ∧ localFields ⟨fields_to_secs ⟨2024, 1, 1, 0, 0, 0⟩, 0⟩ = ⟨2024, 1, 1, 0, 0, 0⟩
    ∧ localFields ⟨fields_to_secs ⟨2024, 1, 1, 0, 0, 0⟩, 3600⟩
        = fields_of_secs (fields_to_secs ⟨2024, 1, 1, 0, 0, 0⟩ + 3600) :=
  timewarrior_parse_utc "20240101T000000Z" 3600 ⟨2024, 1, 1, 0, 0, 0⟩ (by decide)

/-- C4 (counterexample to the claim as stated): at local offset +01:00 the
string `20240101T000000Z` parses to an instant whose LOCAL calendar time is
01:00:00, not the written 00:00:00 — the trailing `Z` timestamp digits are
taken as UTC, not as local wall-clock. -/
theorem timewarrior_parse_not_local :
    timewarrior_parse "20240101T000000Z" 3600 = some ⟨1704067200, 3600⟩
    ∧ localFields ⟨1704067200, 3600⟩ = ⟨2024, 1, 1, 1, 0, 0⟩
    ∧ localFields ⟨1704067200, 3600⟩ ≠ ⟨2024, 1, 1, 0, 0, 0⟩ := by
  refine ⟨by decide, by decide, by decide⟩

/-- C5 (amended): with the local zone at UTC (offset 0), the example settings
render exactly `"2024-01-01 - 2024-01-31"` — the end bound minus one second
falls on January 31. -/
theorem report_title_example_utc :
    Data.report_title ⟨[⟨"temp.report.start", "20240101T000000Z"⟩,
        ⟨"temp.report.end", "20240201T000000Z"⟩], []⟩ 0
      = some "2024-01-01 - 2024-01-31" := by decide

/-- C5 (counterexample to the claim as stated): at local offset +01:00 the
same settings render `"2024-01-01 - 2024-02-01"`, because the timestamps are
parsed as UTC and the local calendar date shifts with the offset. -/
theorem report_title_example_offset :
    Data.report_title ⟨[⟨"temp.report.start", "20240101T000000Z"⟩,
        ⟨"temp.report.end", "20240201T000000Z"⟩], []⟩ 3600
      = some "2024-01-01 - 2024-02-01"
    ∧ ("2024-01-01 - 2024-02-01" : String) ≠ "2024-01-01 - 2024-01-31" := by
  refine ⟨by decide, by decide⟩

/-! ### Input assembly (`get_data`, main.rs lines 138–159) and the report
value computed by `main` (lines 163–242) -/

/-- A `line.find(": ")` split: `some` setting on the first occurrence of
`": "` (the value keeps any further `": "`), `none` for a payload line. -/
def split_setting (line : String) : Option Setting :=
  match line.splitOn ": " with
  | name :: r :: rest => some ⟨name, String.intercalate ": " (r :: rest)⟩
  | _ => none

/-- The line loop of `get_data`: settings in order, and the buffered
interval lines (every non-setting line other than the literal `"\n"`). -/
def parse_lines (lines : List String) : List Setting × List String :=
  lines.foldl (fun acc line =>
    match split_setting line with
    | some s => (acc.1 ++ [s], acc.2)
    | none => if line ≠ "\n" then (acc.1, acc.2 ++ [line]) else acc) ([], [])

/-- The concatenation (no separator) of the buffered interval lines, handed
to `serde_json::from_str`. -/
def interval_payload (lines : List String) : String :=
  String.intercalate "" (parse_lines lines).2

/-- `get_data`, with the external serde_json decoder abstracted as `decode`;
`none` models the `.unwrap()` panic on a decode failure. -/
def get_data (decode : String → Option (List Interval)) (lines : List String) :
    Option Data :=
  (decode (interval_payload lines)).map fun ivs => ⟨(parse_lines lines).1, ivs⟩

/-- chrono `Duration::num_minutes`: whole minutes, truncating toward zero. -/
def num_minutes (d : Int) : Int :=
  Int.tdiv d 60

/-- A row's displayed percentage:
`row_minutes as f64 / total_minutes as f64 * 100.0`, idealised over ℚ. -/
def row_percentage (total dur : Int) : ℚ :=
  (num_minutes dur : ℚ) / (num_minutes total : ℚ) * 100

/-- `MINIMUM_TAGS_WIDTH` (main.rs line 161). -/
def MINIMUM_TAGS_WIDTH : Nat := 12

/-- The structured content `main` prints: the title line, one entry per
displayed group row (padded title, minutes, hours, percentage), the TOTAL
line, and the annotation section when at least one interval carries an
annotation (one entry per such interval, ungrouped). -/
structure Report where
  title : String
  rows : List (String × Int × ℚ × ℚ)
  totalMinutes : Int
  totalHours : ℚ
  annots : Option (List (String × Int × ℚ × ℚ × String))
deriving DecidableEq

/-- Everything `main` computes after `get_data`, as one value; `none` models
the panic inside `report_title` on an unparseable setting. -/
def main_report (data : Data) (offset : Int) : Option Report :=
  (data.report_title offset).map fun title =>
    let rows := data.grouped_report_rows
    let max_title := ((rows.map fun r => r.title.length) ++ [MINIMUM_TAGS_WIDTH]).max?.getD 0
    let total_duration := (rows.map fun r => r.duration).sum
    let annotated := data.intervals.filter fun i => i.annot.isSome
    { title := title
      rows := (displayRows rows).map fun r =>
        (pad_string r.title max_title, num_minutes r.duration,
          (r.duration : ℚ) / 3600, row_percentage total_duration r.duration)
      totalMinutes := num_minutes total_duration
      totalHours := (total_duration : ℚ) / 3600
      annots := if annotated.isEmpty then none
        else some (annotated.map fun i =>
          (pad_string i.title max_title, num_minutes i.duration,
            (i.duration : ℚ) / 3600, row_percentage total_duration i.duration,
            i.annot.getD "")) }

/-- The full run: parse the input lines, decode the payload, compute the
report.  All output happens after this value exists. -/
def run (decode : String → Option (List Interval)) (lines : List String)
    (offset : Int) : Option Report :=
  (get_data decode lines).bind fun data => main_report data offset

/-- C6: if the concatenated non-setting lines fail to decode, the run aborts
before any report is produced — no data value and no report lines, hence no
partial list of intervals is ever used. -/
theorem decode_failure_aborts (decode : String → Option (List Interval))
    (lines : List String) (offset : Int)
    (h : decode (interval_payload lines) = none) :
    get_data decode lines = none ∧ run decode lines offset = none := by
  constructor
  · simp [get_data, h]
  · simp [run, get_data, h]

/-- Witness for `decode_failure_aborts`: an always-failing decoder on a
one-line input. -/
theorem decode_failure_aborts_witness :
    get_data (fun _ => none) ["x"] = none
    ∧ run (fun _ => none) ["x"] 0 = none :=
  decode_failure_aborts (fun _ => none) ["x"] 0 rfl

/-- Helper: the report of a data value with no intervals. -/
theorem main_report_empty (settings : List Setting) (offset : Int) (t : String)
    (ht : Data.report_title ⟨settings, []⟩ offset = some t) :
    main_report ⟨settings, []⟩ offset = some ⟨t, [], 0, 0, none⟩ := by
  have h1 : (Data.mk settings ([] : List Interval)).grouped_report_rows = [] := rfl
  have h3 : num_minutes 0 = 0 := rfl
  unfold main_report
  rw [ht]
  simp [h1, displayRows, sortRows, h3, List.insertionSort]

/-- C7: with an empty interval list the report has no grouped rows, a TOTAL
of 0 minutes, and no annotation section — and with no settings at all the
run completes (no crash), producing the empty-titled report. -/
theorem empty_intervals_report (settings : List Setting) (offset : Int) :
    (∀ r, main_report ⟨settings, []⟩ offset = some r →
      r.rows = [] ∧ r.totalMinutes = 0 ∧ r.annots = none)
    ∧ main_report ⟨[], ([] : List Interval)⟩ offset = some ⟨"", [], 0, 0, none⟩ := by
  constructor
  · intro r hr
    cases ht : Data.report_title ⟨settings, []⟩ offset with
    | none =>
      unfold main_report at hr
      rw [ht] at hr
      exact absurd hr (by simp)
    | some t =>
      rw [main_report_empty settings offset t ht] at hr
      cases hr
      exact ⟨rfl, rfl, rfl⟩
  · exact main_report_empty [] offset "" rfl

/-- Witness for `empty_intervals_report` at concrete settings and offset. -/
theorem empty_intervals_report_witness :
    (∀ r, main_report ⟨[⟨"k", "v"⟩], []⟩ 0 = some r →
      r.rows = [] ∧ r.totalMinutes = 0 ∧ r.annots = none)
    ∧ main_report ⟨[], ([] : List Interval)⟩ 0 = some ⟨"", [], 0, 0, none⟩ :=
  empty_intervals_report [⟨"k", "v"⟩] 0

/-! ### Percentages (main.rs lines 196–209) -/

/-- Summing whole-minute values of durations that are all multiples of 60
commutes with taking whole minutes of the summed duration (cast into ℚ). -/
theorem num_minutes_cast_sum (rows : List GroupReportRow)
    (h : ∀ r ∈ rows, (60 : Int) ∣ r.duration) :
    (rows.map fun r => ((num_minutes r.duration : Int) : ℚ)).sum
      = ((num_minutes ((rows.map GroupReportRow.duration).sum) : Int) : ℚ) := by
  induction rows with
  | nil => simp [num_minutes]
  | cons r rs ih =>
    have hr := h r (List.mem_cons_self r rs)
    have hrs : (60 : Int) ∣ (rs.map GroupReportRow.duration).sum :=
      List.dvd_sum (fun x hx => by
        obtain ⟨rr, hrr, rfl⟩ := List.mem_map.mp hx
        exact h rr (List.mem_cons_of_mem r hrr))
    obtain ⟨p, hp⟩ := hr
    obtain ⟨q, hq⟩ := hrs
    rw [List.map_cons, List.sum_cons, ih (fun x hx => h x (List.mem_cons_of_mem r hx)),
      List.map_cons, List.sum_cons, hp, hq, ← mul_add]
    rw [num_minutes, num_minutes, num_minutes,
      Int.mul_tdiv_cancel_left _ (by norm_num),
      Int.mul_tdiv_cancel_left _ (by norm_num),
      Int.mul_tdiv_cancel_left _ (by norm_num)]
    push_cast
    ring

/-- Each grouped row's duration inherits divisibility by 60 from the
intervals. -/
theorem grouped_rows_dvd (data : Data)
    (h : ∀ i ∈ data.intervals, (60 : Int) ∣ i.duration) :
    ∀ r ∈ data.grouped_report_rows, (60 : Int) ∣ r.duration := by
  intro r hr
  rw [grouped_rows_duration_eq_sumT data r hr]
  unfold sumT
  refine List.dvd_sum ?_
  intro x hx
  obtain ⟨i, hi, rfl⟩ := List.mem_map.mp hx
  exact h i (List.mem_of_mem_filter hi)

/-- C8 (counterexample to the claim as stated): two 30-second intervals with
distinct tags have nonzero total duration, yet every displayed percentage is
0 (each row has 0 whole minutes while the total has 1), so the percentages
sum to 0, not 100. -/
theorem percentage_sum_counterexample :
    ((Data.mk [] [⟨⟨0, 0⟩, ⟨30, 0⟩, ["a"], none⟩,
        ⟨⟨0, 0⟩, ⟨30, 0⟩, ["b"], none⟩]).intervals.map Interval.duration).sum ≠ 0
    ∧ (((Data.mk [] [⟨⟨0, 0⟩, ⟨30, 0⟩, ["a"], none⟩,
          ⟨⟨0, 0⟩, ⟨30, 0⟩, ["b"], none⟩]).grouped_report_rows).map fun r =>
        row_percentage
          (((Data.mk [] [⟨⟨0, 0⟩, ⟨30, 0⟩, ["a"], none⟩,
              ⟨⟨0, 0⟩, ⟨30, 0⟩, ["b"], none⟩]).grouped_report_rows).map
            GroupReportRow.duration).sum r.duration).sum = 0
    ∧ (0 : ℚ) ≠ 100 := by
  have hrows : (Data.mk [] [⟨⟨0, 0⟩, ⟨30, 0⟩, ["a"], none⟩,
      ⟨⟨0, 0⟩, ⟨30, 0⟩, ["b"], none⟩]).grouped_report_rows
      = [⟨"a", 30⟩, ⟨"b", 30⟩] := by decide
  have h30 : Int.tdiv 30 60 = 0 := by decide
  have h60 : Int.tdiv 60 60 = 1 := by decide
  refine ⟨by decide, ?_, by norm_num⟩
  rw [hrows]
  simp [row_percentage, num_minutes, h30, h60]

/-- C8 (amended): when every interval lasts a whole number of minutes (so the
per-row minute truncation loses nothing) and the total duration is nonzero,
the displayed percentages of the grouped rows sum to exactly 100. -/
theorem percentage_sum_amended (data : Data)
    (hdvd : ∀ i ∈ data.intervals, (60 : Int) ∣ i.duration)
    (h0 : ((data.intervals.map Interval.duration)).sum ≠ 0) :
    ((data.grouped_report_rows).map fun r =>
        row_percentage ((data.grouped_report_rows.map GroupReportRow.duration).sum)
          r.duration).sum = 100 := by
  set T := (data.grouped_report_rows.map GroupReportRow.duration).sum with hTdef
  have hT : T = (data.intervals.map Interval.duration).sum :=
    grouped_rows_duration_sum_aux data
  have hTdvd : (60 : Int) ∣ T := by
    rw [hT]
    refine List.dvd_sum ?_
    intro x hx
    obtain ⟨i, hi, rfl⟩ := List.mem_map.mp hx
    exact hdvd i hi
  have hT0 : T ≠ 0 := fun hh => h0 (by rw [← hT]; exact hh)
  obtain ⟨k, hk⟩ := hTdvd
  have hnmT : num_minutes T = k := by
    rw [num_minutes, hk, Int.mul_tdiv_cancel_left _ (by norm_num)]
  have hk0 : k ≠ 0 := by
    intro h
    rw [h, mul_zero] at hk
    exact hT0 hk
  have h1 : (data.grouped_report_rows).map
        (fun r => row_percentage T r.duration)
      = (data.grouped_report_rows).map
        (fun r => ((num_minutes r.duration : Int) : ℚ) * (100 / (num_minutes T : ℚ))) := by
    refine List.map_congr_left ?_
    intro r _
    rw [row_percentage]
    ring
  rw [h1, List.sum_map_mul_right,
    num_minutes_cast_sum data.grouped_report_rows (grouped_rows_dvd data hdvd), hnmT]
  have hkq : ((k : Int) : ℚ) ≠ 0 := Int.cast_ne_zero.mpr hk0
  field_simp

/-- Witness for `percentage_sum_amended`: one whole-minute interval. -/
theorem percentage_sum_amended_witness :
    ((Data.mk [] [⟨⟨0, 0⟩, ⟨60, 0⟩, ["a"], none⟩]).grouped_report_rows.map fun r =>
        row_percentage
          (((Data.mk [] [⟨⟨0, 0⟩, ⟨60, 0⟩, ["a"], none⟩]).grouped_report_rows.map
            GroupReportRow.duration).sum) r.duration).sum = 100 :=
  percentage_sum_amended (Data.mk [] [⟨⟨0, 0⟩, ⟨60, 0⟩, ["a"], none⟩])
    (by decide) (by decide)

end TimewarriorGrouped
